import Mathlib

/-!
Shallow embedding of the `weathersite` per-client sliding-window rate limiter
(`weathersite/ratelimit/throttle.py`).

Modelling conventions:
* Timestamps (`time.time()`) are rationals `ℚ`.
* The Django cache is a `Store`: a map from keys to a stored value together
  with its absolute expiry time; `cacheGet` at time `now` returns `[]` for an
  absent or expired entry (the Python `default_cache.get(key, [])`), and
  `cacheSet` records the value with expiry `now + ttl`
  (`default_cache.set(key, value, ttl)`).
* The module constant `NUMBER_OF_REQUESTS = getattr(settings, "DEFAULT_RATE_LIMIT_PER_MINUTE", 60)`
  is an explicit parameter `defaultLimit`; the Python defaulting expression
  `number_of_requests or NUMBER_OF_REQUESTS` (falsy `or`: both `None` and `0`
  fall back to the default) is `effectiveQuota`.
* The request object carries the two fields the throttle reads: the
  authentication state (`request.user.is_authenticated`) and the result of
  `ipware.get_client_ip` (`none` when no usable address resolves).
* Python exceptions become `Except`: `RateExceeded` and `NotAuthenticated`
  are the error values; the successful return tuple
  `(False, None, None) / (True, limit, remaining)` is the sum `CheckOk`.
-/

/-- Constant `DEFAULT_DURATION = 60` (throttle.py line 14): the window duration. -/
def DEFAULT_DURATION : ℚ := 60

/-- The two fields of the Django request object that the throttle reads. -/
structure Request where
  is_authenticated : Bool
  client_ip : Option String
deriving Repr, DecidableEq

/-- Function `get_cache_key(request)` (throttle.py lines 23-31): returns the client IP
resolved by the external `ipware` library, or `None` when it cannot be
resolved.  The library call is external input, modelled as the request field. -/
def get_cache_key (request : Request) : Option String :=
  request.client_ip

/-- The exceptions `check_rate_limit` can raise: `RateExceeded` (HTTP 429) and
the DRF `NotAuthenticated` (HTTP 401). -/
inductive CheckExc where
  | rateExceeded
  | notAuthenticated
deriving Repr, DecidableEq

/-- The successful return tuple of `check_rate_limit`:
`(False, None, None)` for no throttling, `(True, limit, remaining)` when the
request was throttled and accepted. -/
inductive CheckOk where
  | notLimited
  | accepted (limit : ℕ) (remaining : ℤ)
deriving Repr, DecidableEq

/-- The Django cache: per key, a stored history and its absolute expiry time. -/
structure Store where
  find : String → Option (List ℚ × ℚ)

/-- The cache with no entries. -/
def emptyStore : Store := ⟨fun _ => none⟩

/-- Read `default_cache.get(key, [])` at time `now`: the stored history if the
entry exists and has not expired, otherwise `[]`. -/
def cacheGet (s : Store) (key : String) (now : ℚ) : List ℚ :=
  match s.find key with
  | none => []
  | some (v, e) => if now < e then v else []

/-- Write `default_cache.set(key, value, ttl)` at time `now`: replace the entry,
expiring at `now + ttl`. -/
def cacheSet (s : Store) (key : String) (v : List ℚ) (ttl now : ℚ) : Store :=
  ⟨fun k => if k = key then some (v, now + ttl) else s.find k⟩

/-- The Python defaulting `number_of_requests or NUMBER_OF_REQUESTS`
(throttle.py line 56): `None` and `0` are falsy, so both fall back to the
module default. -/
def effectiveQuota (number_of_requests : Option ℕ) (defaultLimit : ℕ) : ℕ :=
  match number_of_requests with
  | none => defaultLimit
  | some k => if k = 0 then defaultLimit else k

/-- The pruning loop (throttle.py lines 62-63):
`while history and history[-1] <= now - duration: history.pop()` —
repeatedly drop the last element while it is stale. -/
def pruneHistory (now duration : ℚ) (history : List ℚ) : List ℚ :=
  (history.reverse.dropWhile (fun t => decide (t ≤ now - duration))).reverse

/-- Function `check_rate_limit(request, number_of_requests)` (throttle.py lines 34-70).
The module global `NUMBER_OF_REQUESTS` is the parameter `defaultLimit`, the
global cache is threaded as `store`, and `time.time()` is `now`.  Returns the
result (exception or tuple) together with the cache after the call. -/
def check_rate_limit (request : Request) (number_of_requests : Option ℕ)
    (defaultLimit : ℕ) (store : Store) (now : ℚ) :
    Except CheckExc CheckOk × Store :=
  if request.is_authenticated then
    (.ok .notLimited, store)
  else
    match get_cache_key request with
    | none => (.error .notAuthenticated, store)
    | some cache_key =>
      let duration := DEFAULT_DURATION
      let n := effectiveQuota number_of_requests defaultLimit
      let history := pruneHistory now duration (cacheGet store cache_key now)
      if n ≤ history.length then
        (.error .rateExceeded, store)
      else
        let history2 := now :: history
        (.ok (.accepted n ((n : ℤ) - history2.length)),
         cacheSet store cache_key history2 duration now)

/-- A response object: status code, abstract body, and header assoc-list
(rate-limit header values are the integers the decorator assigns). -/
structure HttpResponse where
  status : ℕ
  body : String
  headers : List (String × ℤ)
deriving Repr, DecidableEq

/-- Assignment `response[name] = value`: set (replace) a header on the response. -/
def setHeader (resp : HttpResponse) (name : String) (value : ℤ) : HttpResponse :=
  { resp with headers := (name, value) :: resp.headers.filter (fun kv => kv.1 ≠ name) }

/-- The bare `Response(status=HTTP_429_TOO_MANY_REQUESTS)` built by the
decorator `except RateExceeded` handler. -/
def response429 : HttpResponse := ⟨429, "", []⟩

/-- The wrapper produced by `with_rate_limit(number_of_requests)`
(throttle.py lines 75-90) applied to a view `function`: run
`check_rate_limit`; on `RateExceeded` return the bare 429 response; otherwise
call the view, and when the check throttled, attach the two rate-limit
headers.  `NotAuthenticated` is not caught and propagates as the error. -/
def with_rate_limit (number_of_requests : ℕ) (defaultLimit : ℕ)
    (function : Request → HttpResponse) (request : Request)
    (store : Store) (now : ℚ) : Except CheckExc HttpResponse × Store :=
  match check_rate_limit request (some number_of_requests) defaultLimit store now with
  | (.error .rateExceeded, s) => (.ok response429, s)
  | (.error .notAuthenticated, s) => (.error .notAuthenticated, s)
  | (.ok .notLimited, s) => (.ok (function request), s)
  | (.ok (.accepted limit_requests pending_requests), s) =>
    let response := function request
    let response := setHeader response "X-CURRENT-RATE-LIMIT" limit_requests
    let response := setHeader response "X-REMAINING-CALLS" pending_requests
    (.ok response, s)

/-- Run a sequence of unauthenticated checks for one key, at the given
timestamps, threading the cache; returns the per-call results and the final
cache. -/
def runChecks (key : String) (number_of_requests : Option ℕ) (defaultLimit : ℕ) :
    List ℚ → Store → List (Except CheckExc CheckOk) × Store
  | [], s => ([], s)
  | t :: ts, s =>
    let p := check_rate_limit ⟨false, some key⟩ number_of_requests defaultLimit s t
    let q := runChecks key number_of_requests defaultLimit ts p.2
    (p.1 :: q.1, q.2)

/-- The decide-and-write tail of `check_rate_limit` (throttle.py lines 60-70)
for an unauthenticated request with a resolved key, taken after the
`cache.get` step: prune the history that was read, decide, and on acceptance
write back. -/
def decideAndSet (key : String) (number_of_requests : Option ℕ) (defaultLimit : ℕ)
    (observed : List ℚ) (store : Store) (now : ℚ) :
    Except CheckExc CheckOk × Store :=
  let n := effectiveQuota number_of_requests defaultLimit
  let history := pruneHistory now DEFAULT_DURATION observed
  if n ≤ history.length then
    (.error .rateExceeded, store)
  else
    let history2 := now :: history
    (.ok (.accepted n ((n : ℤ) - history2.length)),
     cacheSet store key history2 DEFAULT_DURATION now)

/-- Two concurrent `check_rate_limit` executions for the same key under the
interleaving get₁ · get₂ · decide-set₁ · decide-set₂: both cache reads happen
before either write.  The code takes no per-key lock around the
get → prune → decide → set sequence, so this schedule is allowed. -/
def interleavedPair (key : String) (number_of_requests : Option ℕ) (defaultLimit : ℕ)
    (store : Store) (now1 now2 : ℚ) :
    Except CheckExc CheckOk × Except CheckExc CheckOk × Store :=
  let h1 := cacheGet store key now1
  let h2 := cacheGet store key now2
  let p1 := decideAndSet key number_of_requests defaultLimit h1 store now1
  let p2 := decideAndSet key number_of_requests defaultLimit h2 p1.2 now2
  (p1.1, p2.1, p2.2)

/-- Whether a call result is an Accepted verdict. -/
def isAccepted : Except CheckExc CheckOk → Bool
  | .ok (.accepted _ _) => true
  | _ => false

/-- Number of Accepted verdicts in a result list. -/
def countAccepted (rs : List (Except CheckExc CheckOk)) : ℕ :=
  rs.countP isAccepted

example : check_rate_limit ⟨false, some "1.2.3.4"⟩ (some 2) 60 emptyStore 0 =
    (.ok (.accepted 2 1), cacheSet emptyStore "1.2.3.4" [0] 60 0) := by
  constructor

example :
    (runChecks "1.2.3.4" (some 2) 60 [0, 1, 2] emptyStore).1 =
      [.ok (.accepted 2 1), .ok (.accepted 2 0), .error .rateExceeded] := by
  norm_num [runChecks, check_rate_limit, get_cache_key, cacheGet, cacheSet, emptyStore,
    pruneHistory, effectiveQuota, DEFAULT_DURATION, List.dropWhile_cons]

/-! ## Helper lemmas about pruning -/

/-- Dropping while a predicate holds is the identity when the predicate fails on every element. -/
theorem dropWhile_eq_self_of (p : ℚ → Bool) (l : List ℚ)
    (h : ∀ x ∈ l, p x = false) : l.dropWhile p = l := by
  cases l with
  | nil => rfl
  | cons a l =>
    rw [List.dropWhile_cons, h a (by simp)]
    simp

/-- Pruning does nothing when no element of the history is stale. -/
theorem pruneHistory_eq_self (now d : ℚ) (h : List ℚ)
    (hfresh : ∀ x ∈ h, ¬ x ≤ now - d) : pruneHistory now d h = h := by
  unfold pruneHistory
  rw [dropWhile_eq_self_of, List.reverse_reverse]
  intro x hx
  rw [List.mem_reverse] at hx
  simp [hfresh x hx]

/-- On an ascending list, dropping the leading elements `≤ c` removes exactly
the elements `≤ c`. -/
theorem dropWhile_le_eq_filter (c : ℚ) :
    ∀ l : List ℚ, l.Sorted (· ≤ ·) →
      l.dropWhile (fun t => decide (t ≤ c)) = l.filter (fun t => decide (c < t))
  | [], _ => rfl
  | a :: l, hs => by
    rcases List.sorted_cons.mp hs with ⟨ha, hl⟩
    rw [List.dropWhile_cons, List.filter_cons]
    by_cases hac : a ≤ c
    · rw [decide_eq_true hac, decide_eq_false (not_lt.mpr hac)]
      simp only [if_true, Bool.false_eq_true, if_false]
      exact dropWhile_le_eq_filter c l hl
    · have hca : c < a := not_le.mp hac
      have hfl : l.filter (fun t => decide (c < t)) = l := by
        rw [List.filter_eq_self]
        intro x hx
        exact decide_eq_true (lt_of_lt_of_le hca (ha x hx))
      rw [decide_eq_false hac, decide_eq_true hca]
      simp [hfl]

/-- On a most-recent-first (descending) history, the pruning loop removes
exactly the timestamps `t ≤ now - d`, keeping exactly the half-open window
`(now - d, now]` part of the history. -/
theorem pruneHistory_eq_filter (now d : ℚ) (h : List ℚ)
    (hs : h.Sorted (· ≥ ·)) :
    pruneHistory now d h = h.filter (fun t => decide (now - d < t)) := by
  unfold pruneHistory
  have hrev : h.reverse.Sorted (· ≤ ·) := by
    rw [List.Sorted, List.pairwise_reverse]
    exact hs
  rw [dropWhile_le_eq_filter _ _ hrev, ← List.filter_reverse, List.reverse_reverse]

/-! ## Claim C2: non-mutation on rejection -/

/-- C2: for every key, stored state and time, if the pruned count reaches the
quota then `check_rate_limit` raises `RateExceeded` and returns the store
untouched — the rejected attempt is not recorded. -/
theorem rejection_does_not_mutate (key : String) (n : Option ℕ) (d : ℕ)
    (s : Store) (now : ℚ)
    (hfull : effectiveQuota n d ≤
      (pruneHistory now DEFAULT_DURATION (cacheGet s key now)).length) :
    check_rate_limit ⟨false, some key⟩ n d s now = (.error .rateExceeded, s) := by
  simp [check_rate_limit, get_cache_key, hfull]

/-- Witness for C2 at a concrete input: one fresh entry stored, quota 1. -/
theorem rejection_does_not_mutate_witness :
    effectiveQuota (some 1) 60 ≤
      (pruneHistory 0 DEFAULT_DURATION
        (cacheGet (cacheSet emptyStore "9.9.9.9" [0] 60 0) "9.9.9.9" 0)).length ∧
    check_rate_limit ⟨false, some "9.9.9.9"⟩ (some 1) 60
        (cacheSet emptyStore "9.9.9.9" [0] 60 0) 0 =
      (.error .rateExceeded, cacheSet emptyStore "9.9.9.9" [0] 60 0) := by
  have h : effectiveQuota (some 1) 60 ≤
      (pruneHistory 0 DEFAULT_DURATION
        (cacheGet (cacheSet emptyStore "9.9.9.9" [0] 60 0) "9.9.9.9" 0)).length := by
    norm_num [effectiveQuota, pruneHistory, cacheGet, cacheSet, emptyStore,
      DEFAULT_DURATION, List.dropWhile_cons]
  exact ⟨h, rejection_does_not_mutate "9.9.9.9" (some 1) 60
    (cacheSet emptyStore "9.9.9.9" [0] 60 0) 0 h⟩

/-! ## Claim C3: half-open window pruning -/

/-- C3: on a most-recent-first history, pruning removes exactly the
timestamps `t ≤ now - duration` (the boundary timestamp is pruned), so the
counted window is the half-open interval `(now - duration, now]`; in
particular an entry recorded at time `T` is no longer counted by any check at
time `≥ T + duration`. -/
theorem prune_keeps_exactly_window (now dur : ℚ) (h : List ℚ)
    (hs : h.Sorted (· ≥ ·)) :
    pruneHistory now dur h = h.filter (fun t => decide (now - dur < t)) ∧
      (∀ T ∈ h, T + dur ≤ now → T ∉ pruneHistory now dur h) := by
  refine ⟨pruneHistory_eq_filter now dur h hs, ?_⟩
  intro T hT hTd hmem
  rw [pruneHistory_eq_filter now dur h hs, List.mem_filter] at hmem
  have : now - dur < T := of_decide_eq_true hmem.2
  linarith

/-- Witness for C3 at a concrete input: `now = 61`, window 60, history
`[61, 1]`; the boundary entry `1 = 61 - 60` is pruned. -/
theorem prune_keeps_exactly_window_witness :
    ([(61 : ℚ), 1].Sorted (· ≥ ·)) ∧
    (pruneHistory 61 60 [61, 1] =
        [(61 : ℚ), 1].filter (fun t => decide ((61 : ℚ) - 60 < t)) ∧
      (∀ T ∈ [(61 : ℚ), 1], T + 60 ≤ 61 → T ∉ pruneHistory 61 60 [61, 1])) := by
  have hs : ([(61 : ℚ), 1] : List ℚ).Sorted (· ≥ ·) := by
    norm_num [List.sorted_cons]
  exact ⟨hs, prune_keeps_exactly_window 61 60 [61, 1] hs⟩

/-! ## Claim C4: quota 0 -/

/-- C4 counterexample: with the module default `NUMBER_OF_REQUESTS = 60`, a
request checked with a configured quota of 0 is Accepted (with the default
limit 60), not rejected: `number_of_requests or NUMBER_OF_REQUESTS` treats
`0` as falsy and replaces it by the default. -/
theorem quota_zero_not_always_rejected :
    (check_rate_limit ⟨false, some "1.2.3.4"⟩ (some 0) 60 emptyStore 0).1 =
      .ok (.accepted 60 59) := by
  norm_num [check_rate_limit, get_cache_key, cacheGet, emptyStore, pruneHistory,
    effectiveQuota, DEFAULT_DURATION]

/-- C4 amended: whenever the effective quota — the value of
`number_of_requests or NUMBER_OF_REQUESTS`, so 0 only when the module default
itself is 0 and no positive per-call quota is given — is 0, every
unauthenticated check with a resolvable key rejects, for every store state
and time. -/
theorem effective_quota_zero_always_rejects (key : String) (n : Option ℕ)
    (d : ℕ) (s : Store) (now : ℚ) (h0 : effectiveQuota n d = 0) :
    check_rate_limit ⟨false, some key⟩ n d s now = (.error .rateExceeded, s) := by
  simp [check_rate_limit, get_cache_key, h0]

/-- Witness for the amended C4: module default 0, per-call quota `None`,
empty store. -/
theorem effective_quota_zero_always_rejects_witness :
    effectiveQuota none 0 = 0 ∧
    check_rate_limit ⟨false, some "1.2.3.4"⟩ none 0 emptyStore 0 =
      (.error .rateExceeded, emptyStore) :=
  ⟨rfl, effective_quota_zero_always_rejects "1.2.3.4" none 0 emptyStore 0 rfl⟩

/-! ## Claim C5: accepted postcondition -/

/-- C5: when the pruned count is strictly below the quota, the check prepends
`now` to the pruned history, writes it back with TTL equal to the window
duration, and returns `(True, quota, quota - len(history after insertion))`,
with the remaining value in `[0, quota - 1]`. -/
theorem accepted_postcondition (key : String) (n : Option ℕ) (d : ℕ)
    (s : Store) (now : ℚ) (Q : ℕ) (H : List ℚ)
    (hQ : effectiveQuota n d = Q)
    (hH : pruneHistory now DEFAULT_DURATION (cacheGet s key now) = H)
    (hlt : H.length < Q) :
    check_rate_limit ⟨false, some key⟩ n d s now =
      (.ok (.accepted Q ((Q : ℤ) - (H.length + 1))),
        cacheSet s key (now :: H) DEFAULT_DURATION now) ∧
      0 ≤ (Q : ℤ) - (H.length + 1) ∧ (Q : ℤ) - (H.length + 1) ≤ (Q : ℤ) - 1 := by
  refine ⟨?_, by omega, by omega⟩
  simp only [check_rate_limit, get_cache_key, Bool.false_eq_true, if_false,
    hQ, hH, not_le.mpr hlt, if_neg (not_le.mpr hlt)]
  simp [Nat.not_le.mpr hlt]

/-- Witness for C5 at a concrete input: empty store, quota 2, `now = 0`. -/
theorem accepted_postcondition_witness :
    effectiveQuota (some 2) 60 = 2 ∧
    pruneHistory 0 DEFAULT_DURATION (cacheGet emptyStore "3.3.3.3" 0) = [] ∧
    ([] : List ℚ).length < 2 ∧
    (check_rate_limit ⟨false, some "3.3.3.3"⟩ (some 2) 60 emptyStore 0 =
      (.ok (.accepted 2 ((2 : ℤ) - (([] : List ℚ).length + 1))),
        cacheSet emptyStore "3.3.3.3" ((0 : ℚ) :: []) DEFAULT_DURATION 0) ∧
      0 ≤ (2 : ℤ) - (([] : List ℚ).length + 1) ∧
      (2 : ℤ) - (([] : List ℚ).length + 1) ≤ (2 : ℤ) - 1) := by
  refine ⟨rfl, rfl, by decide, ?_⟩
  exact accepted_postcondition "3.3.3.3" (some 2) 60 emptyStore 0 2 [] rfl rfl
    (by decide)

/-! ## One-step characterization and sequential runs -/

/-- One unauthenticated check with a resolved key, when the history read from
the cache has no stale entry: the call accepts exactly when the count is
below the effective quota. -/
theorem check_step (key : String) (n : Option ℕ) (d : ℕ) (s : Store) (t : ℚ)
    (h : List ℚ) (hget : cacheGet s key t = h)
    (hfresh : ∀ x ∈ h, ¬ x ≤ t - DEFAULT_DURATION) :
    check_rate_limit ⟨false, some key⟩ n d s t =
      if effectiveQuota n d ≤ h.length then
        (.error .rateExceeded, s)
      else
        (.ok (.accepted (effectiveQuota n d)
            ((effectiveQuota n d : ℤ) - ((h.length + 1 : ℕ) : ℤ))),
          cacheSet s key (t :: h) DEFAULT_DURATION t) := by
  have hp : pruneHistory t DEFAULT_DURATION (cacheGet s key t) = h := by
    rw [hget]
    exact pruneHistory_eq_self _ _ _ hfresh
  by_cases hle : effectiveQuota n d ≤ h.length
  · simp [check_rate_limit, get_cache_key, hp, hle]
  · simp [check_rate_limit, get_cache_key, hp, hle]

/-- The per-call results of a sequential run, generalized over the current
cache entry: with `h` the (fresh) stored history visible to every call and
all call times within one window of each other, the `i`-th call is Accepted
with remaining `quota - (|h| + i + 1)` while `|h| + i < quota`, and Rejected
afterwards. -/
theorem runChecks_results (key : String) (n : Option ℕ) (d : ℕ) :
    ∀ (ts : List ℚ) (s : Store) (h : List ℚ),
      (∀ t ∈ ts, cacheGet s key t = h) →
      (∀ x ∈ h, ∀ t ∈ ts, t - x < DEFAULT_DURATION) →
      (∀ t ∈ ts, ∀ u ∈ ts, u - t < DEFAULT_DURATION) →
      (runChecks key n d ts s).1 =
        (List.range ts.length).map (fun i =>
          if h.length + i < effectiveQuota n d then
            .ok (.accepted (effectiveQuota n d)
              ((effectiveQuota n d : ℤ) - ((h.length + i + 1 : ℕ) : ℤ)))
          else .error .rateExceeded)
  | [], _, _, _, _, _ => by simp [runChecks]
  | t :: ts, s, h, hget, hfresh, hwin => by
    have htt : t ∈ t :: ts := List.mem_cons_self t ts
    have hstep := check_step key n d s t h (hget t htt) ?hfr
    case hfr =>
      intro x hx hxle
      have := hfresh x hx t htt
      linarith
    rw [List.length_cons, List.range_succ_eq_map, List.map_cons, List.map_map]
    by_cases hle : effectiveQuota n d ≤ h.length
    · rw [if_pos hle] at hstep
      have hrest := runChecks_results key n d ts s h
        (fun u hu => hget u (List.mem_cons_of_mem t hu))
        (fun x hx u hu => hfresh x hx u (List.mem_cons_of_mem t hu))
        (fun u hu v hv =>
          hwin u (List.mem_cons_of_mem t hu) v (List.mem_cons_of_mem t hv))
      simp only [runChecks, hstep]
      rw [hrest]
      congr 1
      · have h0 : ¬ (h.length + 0 < effectiveQuota n d) := by omega
        rw [if_neg h0]
      · apply List.map_congr_left
        intro i _
        have h1 : ¬ (h.length + i < effectiveQuota n d) := by omega
        have h2 : ¬ (h.length + (i + 1) < effectiveQuota n d) := by omega
        simp only [Function.comp_apply, Nat.succ_eq_add_one]
        rw [if_neg h1, if_neg h2]
    · rw [if_neg hle] at hstep
      have hlt : h.length < effectiveQuota n d := Nat.not_le.mp hle
      have hget2 : ∀ u ∈ ts, cacheGet (cacheSet s key (t :: h) DEFAULT_DURATION t)
          key u = t :: h := by
        intro u hu
        have hut : u - t < DEFAULT_DURATION :=
          hwin t htt u (List.mem_cons_of_mem t hu)
        have hue : u < t + DEFAULT_DURATION := by linarith
        simp [cacheGet, cacheSet, hue]
      have hfresh2 : ∀ x ∈ t :: h, ∀ u ∈ ts, u - x < DEFAULT_DURATION := by
        intro x hx u hu
        rcases List.mem_cons.mp hx with hxt | hxh
        · subst hxt
          exact hwin x htt u (List.mem_cons_of_mem x hu)
        · exact hfresh x hxh u (List.mem_cons_of_mem t hu)
      have hrest := runChecks_results key n d ts
        (cacheSet s key (t :: h) DEFAULT_DURATION t) (t :: h) hget2 hfresh2
        (fun u hu v hv =>
          hwin u (List.mem_cons_of_mem t hu) v (List.mem_cons_of_mem t hv))
      simp only [runChecks, hstep]
      rw [hrest]
      congr 1
      · have h0 : h.length + 0 < effectiveQuota n d := by omega
        rw [if_pos h0]
      · apply List.map_congr_left
        intro i _
        have heq : (t :: h).length + i = h.length + (i + 1) := by
          rw [List.length_cons]
          omega
        simp only [Function.comp_apply, Nat.succ_eq_add_one]
        rw [heq]

/-- Counting the indices below `Q` in `range m`. -/
theorem countP_range_lt (m Q : ℕ) :
    (List.range m).countP (fun i => decide (i < Q)) = min m Q := by
  induction m with
  | zero => simp
  | succ m ih =>
    rw [List.range_succ, List.countP_append, ih]
    simp only [List.countP_cons, List.countP_nil]
    by_cases h : m < Q
    · rw [decide_eq_true h]
      simp only [if_true]
      rw [Nat.min_eq_left (by omega), Nat.min_eq_left (by omega)]
    · rw [decide_eq_false h]
      simp only [Bool.false_eq_true, if_false]
      rw [Nat.min_eq_right (by omega), Nat.min_eq_right (by omega)]
      omega

/-! ## Claim C1: sequential quota invariant -/

/-- C1: starting from a cache with no entry for the key, any finite sequence
of unauthenticated checks for that key whose timestamps all lie within one
window of duration 60 produces at most `quota` Accepted results. -/
theorem quota_invariant (key : String) (n : Option ℕ) (d : ℕ) (ts : List ℚ)
    (s : Store) (hkey : s.find key = none)
    (hwin : ∀ t ∈ ts, ∀ u ∈ ts, u - t < DEFAULT_DURATION)
    (_hq : 1 ≤ effectiveQuota n d) :
    countAccepted (runChecks key n d ts s).1 ≤ effectiveQuota n d := by
  have hget : ∀ t ∈ ts, cacheGet s key t = [] := by
    intro t _
    simp [cacheGet, hkey]
  have hres := runChecks_results key n d ts s [] hget (by simp) hwin
  rw [countAccepted, hres, List.countP_map]
  have hcong : ∀ i ∈ List.range ts.length,
      ((isAccepted ∘ fun i =>
        if ([] : List ℚ).length + i < effectiveQuota n d then
          Except.ok (CheckOk.accepted (effectiveQuota n d)
            ((effectiveQuota n d : ℤ) - ((([] : List ℚ).length + i + 1 : ℕ) : ℤ)))
        else Except.error CheckExc.rateExceeded) i = true ↔
      (fun i => decide (i < effectiveQuota n d)) i = true) := by
    intro i _
    by_cases h : i < effectiveQuota n d
    · simp [isAccepted, h]
    · simp [isAccepted, h]
  rw [List.countP_congr hcong, countP_range_lt]
  omega

/-- Witness for C1 at a concrete input: quota 2, three calls at times
0, 1, 2 from a fresh key. -/
theorem quota_invariant_witness :
    emptyStore.find "1.2.3.4" = none ∧
    (∀ t ∈ [(0 : ℚ), 1, 2], ∀ u ∈ [(0 : ℚ), 1, 2], u - t < DEFAULT_DURATION) ∧
    1 ≤ effectiveQuota (some 2) 60 ∧
    countAccepted (runChecks "1.2.3.4" (some 2) 60 [0, 1, 2] emptyStore).1 ≤
      effectiveQuota (some 2) 60 := by
  have h1 : emptyStore.find "1.2.3.4" = none := rfl
  have h2 : ∀ t ∈ [(0 : ℚ), 1, 2], ∀ u ∈ [(0 : ℚ), 1, 2],
      u - t < DEFAULT_DURATION := by
    norm_num [List.forall_mem_cons, DEFAULT_DURATION]
  have h3 : 1 ≤ effectiveQuota (some 2) 60 := by decide
  exact ⟨h1, h2, h3,
    quota_invariant "1.2.3.4" (some 2) 60 [0, 1, 2] emptyStore h1 h2 h3⟩

/-! ## Claim C8: remaining monotonicity -/

/-- C8: from a fresh key, with quota `q ≥ 1` and all call times within one
window, the `i`-th check (0-based) is Accepted with remaining `q - (i + 1)` —
strictly decreasing with each acceptance and reaching 0 on the `q`-th — for
`i < q`, and Rejected for every later check in the window. -/
theorem remaining_monotonicity (key : String) (n : Option ℕ) (d : ℕ)
    (ts : List ℚ) (s : Store) (hkey : s.find key = none)
    (hwin : ∀ t ∈ ts, ∀ u ∈ ts, u - t < DEFAULT_DURATION)
    (_hq : 1 ≤ effectiveQuota n d) :
    (runChecks key n d ts s).1 =
      (List.range ts.length).map (fun i =>
        if i < effectiveQuota n d then
          Except.ok (CheckOk.accepted (effectiveQuota n d)
            ((effectiveQuota n d : ℤ) - ((i + 1 : ℕ) : ℤ)))
        else Except.error CheckExc.rateExceeded) := by
  have hget : ∀ t ∈ ts, cacheGet s key t = [] := by
    intro t _
    simp [cacheGet, hkey]
  have hres := runChecks_results key n d ts s [] hget (by simp) hwin
  rw [hres]
  apply List.map_congr_left
  intro i _
  norm_num

/-- Witness for C8 at a concrete input: quota 2 and calls at times 0, 1, 2
give Accepted(2, 1), Accepted(2, 0), Rejected. -/
theorem remaining_monotonicity_witness :
    emptyStore.find "5.5.5.5" = none ∧
    (∀ t ∈ [(0 : ℚ), 1, 2], ∀ u ∈ [(0 : ℚ), 1, 2], u - t < DEFAULT_DURATION) ∧
    1 ≤ effectiveQuota (some 2) 60 ∧
    (runChecks "5.5.5.5" (some 2) 60 [0, 1, 2] emptyStore).1 =
      (List.range ([(0 : ℚ), 1, 2].length)).map (fun i =>
        if i < effectiveQuota (some 2) 60 then
          Except.ok (CheckOk.accepted (effectiveQuota (some 2) 60)
            ((effectiveQuota (some 2) 60 : ℤ) - ((i + 1 : ℕ) : ℤ)))
        else Except.error CheckExc.rateExceeded) := by
  have h1 : emptyStore.find "5.5.5.5" = none := rfl
  have h2 : ∀ t ∈ [(0 : ℚ), 1, 2], ∀ u ∈ [(0 : ℚ), 1, 2],
      u - t < DEFAULT_DURATION := by
    norm_num [List.forall_mem_cons, DEFAULT_DURATION]
  have h3 : 1 ≤ effectiveQuota (some 2) 60 := by decide
  exact ⟨h1, h2, h3,
    remaining_monotonicity "5.5.5.5" (some 2) 60 [0, 1, 2] emptyStore h1 h2 h3⟩

/-! ## Claim C6: authenticated bypass -/

/-- C6: for an authenticated principal the check returns the not-limited
tuple immediately, for every quota configuration, store state and time, and
the store is returned untouched; the decorator then returns the response of
the view exactly, with no rate-limit headers attached.  Since the store is
unchanged, this holds for arbitrarily many such requests. -/
theorem authenticated_bypass (ip : Option String) (n : Option ℕ) (m d : ℕ)
    (s : Store) (now : ℚ) (view : Request → HttpResponse) :
    check_rate_limit ⟨true, ip⟩ n d s now = (.ok .notLimited, s) ∧
    with_rate_limit m d view ⟨true, ip⟩ s now = (.ok (view ⟨true, ip⟩), s) := by
  constructor
  · simp [check_rate_limit]
  · simp [with_rate_limit, check_rate_limit]

/-! ## Claim C7: identification failure is distinct from quota rejection -/

/-- C7: an unauthenticated request whose client IP cannot be resolved makes
the check raise `NotAuthenticated` (not an acceptance, not `RateExceeded`)
without touching the store; the decorator does not catch it, so it is not
converted into the 429 outcome; and for an authenticated principal the
bypass takes precedence over identification. -/
theorem identification_failure_distinct (n : Option ℕ) (m d : ℕ) (s : Store)
    (now : ℚ) (view : Request → HttpResponse) :
    check_rate_limit ⟨false, none⟩ n d s now = (.error .notAuthenticated, s) ∧
    with_rate_limit m d view ⟨false, none⟩ s now =
      (.error .notAuthenticated, s) ∧
    check_rate_limit ⟨true, none⟩ n d s now = (.ok .notLimited, s) := by
  refine ⟨by simp [check_rate_limit, get_cache_key], ?_,
    by simp [check_rate_limit]⟩
  simp [with_rate_limit, check_rate_limit, get_cache_key]

/-- Unless the verdict is Accepted, `check_rate_limit` leaves the store
untouched. -/
theorem check_store_unchanged_unless_accepted (req : Request) (n : Option ℕ)
    (d : ℕ) (s : Store) (now : ℚ)
    (h : ∀ l r, (check_rate_limit req n d s now).1 ≠ .ok (.accepted l r)) :
    (check_rate_limit req n d s now).2 = s := by
  rcases req with ⟨auth, ip⟩
  cases auth
  case true => simp [check_rate_limit]
  case false =>
    cases ip with
    | none => simp [check_rate_limit, get_cache_key]
    | some key =>
      by_cases hle : effectiveQuota n d ≤
          (pruneHistory now DEFAULT_DURATION (cacheGet s key now)).length
      · simp [check_rate_limit, get_cache_key, hle]
      · exfalso
        apply h (effectiveQuota n d)
          ((effectiveQuota n d : ℤ) -
            (((pruneHistory now DEFAULT_DURATION (cacheGet s key now)).length
              + 1 : ℕ) : ℤ))
        simp [check_rate_limit, get_cache_key, hle]

/-! ## Claim C10: the decorator shields the view -/

/-- C10: when the check raises `RateExceeded` the decorator returns the bare
429 response with the store unchanged, and its output does not depend on the
wrapped view at all (the view is never invoked); when the check does not
raise, the returned response is exactly the one built by the view — unchanged on
the not-limited path, and with exactly the two rate-limit headers set on the
throttled path. -/
theorem decorator_shields_view (m d : ℕ) (req : Request) (s : Store) (now : ℚ)
    (view1 view2 : Request → HttpResponse) :
    ((check_rate_limit req (some m) d s now).1 = .error .rateExceeded →
      with_rate_limit m d view1 req s now = (.ok response429, s) ∧
      with_rate_limit m d view1 req s now = with_rate_limit m d view2 req s now) ∧
    ((check_rate_limit req (some m) d s now).1 = .ok .notLimited →
      with_rate_limit m d view1 req s now = (.ok (view1 req), s)) ∧
    (∀ l r, (check_rate_limit req (some m) d s now).1 = .ok (.accepted l r) →
      with_rate_limit m d view1 req s now =
        (.ok (setHeader (setHeader (view1 req) "X-CURRENT-RATE-LIMIT" l)
            "X-REMAINING-CALLS" r),
          (check_rate_limit req (some m) d s now).2)) := by
  refine ⟨?_, ?_, ?_⟩
  · intro hr
    have hs2 : (check_rate_limit req (some m) d s now).2 = s := by
      apply check_store_unchanged_unless_accepted
      intro l r hlr
      rw [hr] at hlr
      exact Except.noConfusion hlr
    have hc : check_rate_limit req (some m) d s now = (.error .rateExceeded, s) :=
      Prod.ext hr hs2
    constructor
    · simp [with_rate_limit, hc]
    · simp [with_rate_limit, hc]
  · intro hr
    have hs2 : (check_rate_limit req (some m) d s now).2 = s := by
      apply check_store_unchanged_unless_accepted
      intro l r hlr
      rw [hr] at hlr
      simp at hlr
    have hc : check_rate_limit req (some m) d s now = (.ok .notLimited, s) :=
      Prod.ext hr hs2
    simp [with_rate_limit, hc]
  · intro l r hr
    have hc : check_rate_limit req (some m) d s now =
        (.ok (.accepted l r), (check_rate_limit req (some m) d s now).2) :=
      Prod.ext hr rfl
    conv_lhs => rw [with_rate_limit, hc]

/-- Witness for C10 at concrete inputs: a rejected call (quota 1, one fresh
entry stored), a bypassed call (authenticated), and an accepted call
(quota 2, fresh key). -/
theorem decorator_shields_view_witness :
    (with_rate_limit 1 60 (fun _ => ⟨200, "ok", []⟩) ⟨false, some "7.7.7.7"⟩
        (cacheSet emptyStore "7.7.7.7" [0] 60 0) 0 =
      (.ok response429, cacheSet emptyStore "7.7.7.7" [0] 60 0) ∧
      with_rate_limit 1 60 (fun _ => ⟨200, "ok", []⟩) ⟨false, some "7.7.7.7"⟩
          (cacheSet emptyStore "7.7.7.7" [0] 60 0) 0 =
        with_rate_limit 1 60 (fun _ => ⟨200, "two", []⟩) ⟨false, some "7.7.7.7"⟩
          (cacheSet emptyStore "7.7.7.7" [0] 60 0) 0) ∧
    (with_rate_limit 2 60 (fun _ => ⟨200, "ok", []⟩) ⟨true, none⟩ emptyStore 0 =
      (.ok ⟨200, "ok", []⟩, emptyStore)) ∧
    (with_rate_limit 2 60 (fun _ => ⟨200, "ok", []⟩) ⟨false, some "7.7.7.7"⟩
        emptyStore 0 =
      (.ok (setHeader (setHeader ⟨200, "ok", []⟩ "X-CURRENT-RATE-LIMIT" 2)
          "X-REMAINING-CALLS" 1),
        (check_rate_limit ⟨false, some "7.7.7.7"⟩ (some 2) 60 emptyStore 0).2)) := by
  refine ⟨?_, ?_, ?_⟩
  · apply (decorator_shields_view 1 60 ⟨false, some "7.7.7.7"⟩
      (cacheSet emptyStore "7.7.7.7" [0] 60 0) 0
      (fun _ => ⟨200, "ok", []⟩) (fun _ => ⟨200, "two", []⟩)).1
    norm_num [check_rate_limit, get_cache_key, cacheGet, cacheSet, emptyStore,
      pruneHistory, effectiveQuota, DEFAULT_DURATION, List.dropWhile_cons]
  · exact (decorator_shields_view 2 60 ⟨true, none⟩ emptyStore 0
      (fun _ => ⟨200, "ok", []⟩) (fun _ => ⟨200, "two", []⟩)).2.1 rfl
  · exact (decorator_shields_view 2 60 ⟨false, some "7.7.7.7"⟩ emptyStore 0
      (fun _ => ⟨200, "ok", []⟩) (fun _ => ⟨200, "two", []⟩)).2.2 2 1 rfl

/-- Faithfulness of the split: an unauthenticated check with a resolved key
is exactly `cacheGet` followed by `decideAndSet` on what was read. -/
theorem check_eq_get_then_decide (key : String) (n : Option ℕ) (d : ℕ)
    (s : Store) (now : ℚ) :
    check_rate_limit ⟨false, some key⟩ n d s now =
      decideAndSet key n d (cacheGet s key now) s now := rfl

/-! ## Claim C9: same-key concurrency -/

/-- C9 counterexample: the get → prune → decide → set sequence takes no
per-key lock, so two concurrent checks for the same key may both read before
either writes (schedule get₁ · get₂ · decide-set₁ · decide-set₂); with quota
1 and a fresh key both calls are then Accepted — 2 admissions in one window
against a quota of 1. -/
theorem concurrent_same_key_exceeds_quota :
    countAccepted [(interleavedPair "1.2.3.4" (some 1) 60 emptyStore 0 0).1,
      (interleavedPair "1.2.3.4" (some 1) 60 emptyStore 0 0).2.1] = 2 ∧
    effectiveQuota (some 1) 60 = 1 := by
  constructor <;> rfl

/-- C9 amended: the unsynchronized read-modify-write sequence lets interleaved
same-key executions act on the same stale count and jointly exceed the quota
(two interleaved calls with quota 1 both accept), while the same two calls
run sequentially admit exactly one — the quota bound holds only when same-key
executions do not interleave. -/
theorem same_key_quota_needs_serialization (key : String) (d : ℕ) (s : Store)
    (now : ℚ) (hkey : s.find key = none) :
    countAccepted [(interleavedPair key (some 1) d s now now).1,
      (interleavedPair key (some 1) d s now now).2.1] = 2 ∧
    countAccepted (runChecks key (some 1) d [now, now] s).1 = 1 := by
  constructor
  · simp [interleavedPair, decideAndSet, cacheGet, hkey, pruneHistory,
      effectiveQuota, countAccepted, isAccepted, List.countP_cons]
  · have hget : ∀ t ∈ [now, now], cacheGet s key t = [] := by
      intro t _
      simp [cacheGet, hkey]
    have hwin : ∀ t ∈ [now, now], ∀ u ∈ [now, now],
        u - t < DEFAULT_DURATION := by
      intro t ht u hu
      rw [List.mem_cons] at ht hu
      have hts : t = now := by
        rcases ht with h | h
        · exact h
        · simpa using h
      have hus : u = now := by
        rcases hu with h | h
        · exact h
        · simpa using h
      rw [hts, hus, DEFAULT_DURATION]
      norm_num
    have hres := runChecks_results key (some 1) d [now, now] s [] hget
      (by simp) hwin
    rw [countAccepted, hres]
    norm_num [effectiveQuota, List.range_succ, List.countP_cons, isAccepted]

/-- Witness for the amended C9 at a concrete input. -/
theorem same_key_quota_needs_serialization_witness :
    emptyStore.find "1.2.3.4" = none ∧
    (countAccepted [(interleavedPair "1.2.3.4" (some 1) 60 emptyStore 0 0).1,
      (interleavedPair "1.2.3.4" (some 1) 60 emptyStore 0 0).2.1] = 2 ∧
    countAccepted (runChecks "1.2.3.4" (some 1) 60 [0, 0] emptyStore).1 = 1) :=
  ⟨rfl, same_key_quota_needs_serialization "1.2.3.4" 60 emptyStore 0 rfl⟩
